import Mathlib

/-!
Verification development for the cleaning transform of
`src/datacleaning.py` (class `DataProcessor`).

The seven-column record table is embedded shallowly: a cell is a `Val`
(string, rational number, parsed calendar date, the pandas `NaT`
invalid-datetime sentinel, or the pandas `NaN` missing marker `NA`);
a row is a `Row` record with the seven fixed columns; a table is a
`List Row`.  Each pandas operation used by `clean_data` is translated to
an executable Lean function, and fallible operations
(`.astype(int)`, which raises on non-finite values) return `Option`.
-/

/-- Cell values of the record table.  `NA` is pandas `NaN` (a missing
cell); `NaT` is the invalid-datetime sentinel that `pd.to_datetime`
with `errors='coerce'` produces; `date d` is a parsed calendar date,
coded as the integer `y*10000 + m*100 + d`. -/
inductive Val : Type where
  | str : String → Val
  | num : ℚ → Val
  | date : ℤ → Val
  | NaT : Val
  | NA : Val
deriving DecidableEq

/-- A row of the seven-column table handled by `clean_data`. -/
structure Row : Type where
  name : Val
  email : Val
  phoneNumber : Val
  age : Val
  country : Val
  salary : Val
  joiningDate : Val
deriving DecidableEq

/-- Worker for `df.drop_duplicates()`: traverse the rows, keeping a row
iff it has not been seen among the earlier kept rows.  Pandas compares
whole rows by exact value equality (with `NaN` matching `NaN`), which is
the derived decidable equality on `Row`. -/
def dedupAux : List Row → List Row → List Row
  | _, [] => []
  | seen, r :: rs =>
      if r ∈ seen then dedupAux seen rs else r :: dedupAux (r :: seen) rs

/-- `df.drop_duplicates()` with the default `keep='first'`. -/
def dropDuplicates (t : List Row) : List Row := dedupAux [] t

/-- The numeric entries of a column, in order (missing cells skipped). -/
def numCells (vs : List Val) : List ℚ :=
  vs.filterMap (fun v => match v with | Val.num q => some q | _ => none)

/-- `Series.mean()`: the arithmetic mean of the non-missing numeric
entries of a column; `NaN` when there are none. -/
def seriesMean (vs : List Val) : Val :=
  let qs := numCells vs
  if qs = [] then Val.NA else Val.num (qs.sum / (qs.length : ℚ))

/-- Elementwise effect of `df.fillna(value=...)`: a missing cell (`NaN`
or `NaT` — pandas `isna` holds for both) is replaced by the column's
fill value, every other cell is left unchanged. -/
def fillCell (fill : Val) (v : Val) : Val :=
  match v with
  | Val.NA => fill
  | Val.NaT => fill
  | v => v

/-- Split a character list on the dash separator. -/
def splitDash : List Char → List (List Char)
  | [] => [[]]
  | c :: rest =>
      if c = '-' then [] :: splitDash rest
      else
        match splitDash rest with
        | [] => [[c]]
        | g :: gs => (c :: g) :: gs

/-- Value of a decimal digit character, if it is one. -/
def digitVal (c : Char) : Option ℕ :=
  if '0' ≤ c ∧ c ≤ '9' then some (c.toNat - 48) else none

/-- Accumulate a decimal numeral; fails on any non-digit. -/
def digitsToNatAux : List Char → ℕ → Option ℕ
  | [], acc => some acc
  | c :: cs, acc => do
      let d ← digitVal c
      digitsToNatAux cs (acc * 10 + d)

/-- Read a non-empty all-digit character list as a natural number. -/
def digitsToNat : List Char → Option ℕ
  | [] => none
  | cs => digitsToNatAux cs 0

/-- Date parser standing in for the elementwise parsing done by pandas
`pd.to_datetime` (library code, not part of this repository): accepts
`yyyy-m-d` with a four-digit year, month `1..12` and day `1..31`, and
fails on every other string.  The result is coded `y*10000+m*100+d`. -/
def parseDate (s : String) : Option ℤ :=
  match splitDash s.toList with
  | [y, m, d] => do
      let yn ← digitsToNat y
      let mn ← digitsToNat m
      let dn ← digitsToNat d
      if y.length = 4 ∧ 1 ≤ mn ∧ mn ≤ 12 ∧ 1 ≤ dn ∧ dn ≤ 31 then
        pure ((yn : ℤ) * 10000 + (mn : ℤ) * 100 + (dn : ℤ))
      else none
  | _ => none

/-- Elementwise effect of `pd.to_datetime(col, errors='coerce')`: a
string parses to a date or is coerced to the `NaT` sentinel; an existing
date passes through; `NaN` and `NaT` coerce to `NaT`.  (Numeric cells
would be read as epoch offsets by pandas; the pipeline's date column
never holds numbers, and they are coerced to `NaT` here.) -/
def toDatetime : Val → Val
  | Val.str s => match parseDate s with | some d => Val.date d | none => Val.NaT
  | Val.date d => Val.date d
  | Val.num _ => Val.NaT
  | Val.NaT => Val.NaT
  | Val.NA => Val.NaT

/-- The fill value `pd.to_datetime('2025-01-04')` used for `JoiningDate`. -/
def defaultJoiningDate : Val := toDatetime (Val.str "2025-01-04")

/-- One row of `df.fillna(value=fill_values)` with the fill map of
`clean_data`: literal strings for `Name`, `Email`, `PhoneNumber`,
`Country`, the supplied column means for `Age` and `Salary`, and the
default date for `JoiningDate`. -/
def fillRow (ageFill salaryFill : Val) (r : Row) : Row :=
  { name := fillCell (Val.str "Unknown") r.name
    email := fillCell (Val.str "missing@email.com") r.email
    phoneNumber := fillCell (Val.str "Unavailable") r.phoneNumber
    age := fillCell ageFill r.age
    country := fillCell (Val.str "Unknown") r.country
    salary := fillCell salaryFill r.salary
    joiningDate := fillCell defaultJoiningDate r.joiningDate }

/-- The table after `drop_duplicates` and `fillna`: the fill values for
`Age` and `Salary` are the column means of the deduplicated table,
computed once and applied to every missing cell. -/
def filledTable (t : List Row) : List Row :=
  (dropDuplicates t).map
    (fillRow (seriesMean ((dropDuplicates t).map Row.age))
             (seriesMean ((dropDuplicates t).map Row.salary)))

/-- Executable floor of a rational (`Int.ediv` of numerator by
denominator); proved equal to `Int.floor` below. -/
def ratFloor (q : ℚ) : ℤ := q.num / q.den

/-- Executable ceiling of a rational. -/
def ratCeil (q : ℚ) : ℤ := -ratFloor (-q)

/-- Round half to even on rationals, the rounding used by
numpy/pandas `Series.round()`. -/
def roundHalfEven (q : ℚ) : ℤ :=
  if q - (ratFloor q : ℚ) < 1/2 then ratFloor q
  else if (1 : ℚ)/2 < q - (ratFloor q : ℚ) then ratFloor q + 1
  else if ratFloor q % 2 = 0 then ratFloor q else ratFloor q + 1

/-- Elementwise `Series.round()`: numeric cells are rounded half to
even; `NaN` stays `NaN` (non-numeric cells would make pandas raise,
which surfaces in `astypeInt` below). -/
def roundVal : Val → Val
  | Val.num q => Val.num ((roundHalfEven q : ℤ) : ℚ)
  | v => v

/-- Truncation toward zero, the float-to-int conversion of `astype(int)`. -/
def ratTrunc (q : ℚ) : ℤ := if q < 0 then ratCeil q else ratFloor q

/-- Elementwise `.astype(int)`: defined on finite numbers only; a
missing cell (or any non-numeric cell) makes pandas raise, embedded
as `none`. -/
def astypeInt : Val → Option Val
  | Val.num q => some (Val.num ((ratTrunc q : ℤ) : ℚ))
  | _ => none

/-- Elementwise `col.round().astype(int)` as applied to `Age` and
`Salary` in `clean_data`. -/
def roundCastInt (v : Val) : Option Val := astypeInt (roundVal v)

/-- Column assignment `df['Age'] = df['Age'].round().astype(int)`:
rewrite the `Age` cell of every row, failing if any cell fails. -/
def castAgeCol : List Row → Option (List Row)
  | [] => some []
  | r :: rs => do
      let a ← roundCastInt r.age
      let rest ← castAgeCol rs
      pure ({ r with age := a } :: rest)

/-- Column assignment `df['Salary'] = df['Salary'].round().astype(int)`. -/
def castSalaryCol : List Row → Option (List Row)
  | [] => some []
  | r :: rs => do
      let s ← roundCastInt r.salary
      let rest ← castSalaryCol rs
      pure ({ r with salary := s } :: rest)

/-- Column assignment
`df['JoiningDate'] = pd.to_datetime(df['JoiningDate'], errors='coerce')`;
total, never fails. -/
def parseDateCol (l : List Row) : List Row :=
  l.map (fun r => { r with joiningDate := toDatetime r.joiningDate })

/-- The table transformation of `DataProcessor.clean_data` (lines 49-67):
copy, `drop_duplicates`, `fillna` with the post-dedup column means and
literals, integer-cast `Age` and `Salary`, coerce `JoiningDate`.
`none` models an uncaught exception (the `astype(int)` raising on a
column that still holds a missing cell). -/
def cleanTable (t : List Row) : Option (List Row) := do
  let a ← castAgeCol (filledTable t)
  let s ← castSalaryCol a
  pure (parseDateCol s)

/-- Observable state of a `DataProcessor` instance: its two data frame
attributes.  `clean_data` works on `self.raw_df.copy()` and mutates only
that copy, so the embedding is a pure state transformer. -/
structure DataProcessor : Type where
  raw_df : Option (List Row)
  cleaned_df : Option (List Row)
deriving DecidableEq

/-- `DataProcessor.clean_data` at state level: with no loaded data it
prints and returns leaving the state unchanged; otherwise it stores the
cleaned copy in `cleaned_df`.  `none` models an uncaught exception. -/
def clean_data (p : DataProcessor) : Option DataProcessor :=
  match p.raw_df with
  | none => some p
  | some t => (cleanTable t).map (fun c => { p with cleaned_df := some c })

/-- The pipeline stages invoked by `run_pipeline` after `clean_data`. -/
inductive Stage : Type where
  | cleanData
  | staticViz
  | dashboard
  | pdfReport
  | saveData
deriving DecidableEq

/-- `DataProcessor.load_data`: reading the source either yields a table
or fails (`FileNotFoundError`), in which case an error message is
printed (the returned flag) and `raw_df` is set to `None`. -/
def load_data (src : Option (List Row)) (p : DataProcessor) : DataProcessor × Bool :=
  match src with
  | some t => ({ p with raw_df := some t }, false)
  | none => ({ p with raw_df := none }, true)

/-- `DataProcessor.__init__`: fresh state, then `load_data`. -/
def initProcessor (src : Option (List Row)) : DataProcessor × Bool :=
  load_data src { raw_df := none, cleaned_df := none }

/-- `DataProcessor.run_pipeline`: when `raw_df` is `None` nothing at all
is invoked; otherwise cleaning runs followed by the four reporting
stages.  The returned list records which stages were invoked. -/
def run_pipeline (p : DataProcessor) : Option (DataProcessor × List Stage) :=
  match p.raw_df with
  | none => some (p, [])
  | some _ =>
      (clean_data p).map (fun p1 =>
        (p1, [Stage.cleanData, Stage.staticViz, Stage.dashboard,
              Stage.pdfReport, Stage.saveData]))

/-- Deduplication as the specification words it: keep the first
occurrence of each row and remove every later row identical to it.
Reference definition, compared with `dropDuplicates`. -/
def specDedup (l : List Row) : List Row :=
  match l with
  | [] => []
  | r :: rs => r :: specDedup (rs.filter (fun x => decide (x ≠ r)))
termination_by l.length
decreasing_by
  simp only [List.length_cons]
  exact Nat.lt_succ_of_le (List.length_filter_le _ _)

/-- Pandas `isna` on a cell: true exactly for `NaN` and `NaT`. -/
def isMissing : Val → Bool
  | Val.NA => true
  | Val.NaT => true
  | _ => false

/-- A cell that is a parsed date or the invalid-date sentinel. -/
def isDateOrNaT : Val → Bool
  | Val.date _ => true
  | Val.NaT => true
  | _ => false

/-- A numeric cell holding an integer value. -/
def isIntVal : Val → Bool
  | Val.num q => q.den == 1
  | _ => false

/-- A numeric (non-missing) cell. -/
def isNum : Val → Bool
  | Val.num _ => true
  | _ => false

/-- A cell that is numeric or missing, the well-formedness pandas needs
of the `Age`/`Salary` columns. -/
def isNumOrNA : Val → Bool
  | Val.num _ => true
  | Val.NA => true
  | _ => false

/-- No missing cell in the six non-date columns of a row. -/
def rowNoMissingSix (r : Row) : Bool :=
  !isMissing r.name && !isMissing r.email && !isMissing r.phoneNumber &&
  !isMissing r.age && !isMissing r.country && !isMissing r.salary

/-- Concrete row with age 20 used in the worked examples. -/
def rowA : Row :=
  { name := Val.str "Alice", email := Val.str "alice@mail.com",
    phoneNumber := Val.str "100", age := Val.num 20,
    country := Val.str "US", salary := Val.num 1000,
    joiningDate := Val.str "2020-05-17" }

/-- Concrete row with age 30. -/
def rowB : Row :=
  { name := Val.str "Bea", email := Val.str "bea@mail.com",
    phoneNumber := Val.str "200", age := Val.num 30,
    country := Val.str "DE", salary := Val.num 3000,
    joiningDate := Val.str "2021-06-01" }

/-- Concrete row with a missing age. -/
def rowC : Row :=
  { name := Val.str "Cid", email := Val.str "cid@mail.com",
    phoneNumber := Val.str "300", age := Val.NA,
    country := Val.str "FR", salary := Val.num 2000,
    joiningDate := Val.str "2022-07-09" }

/-- Three-row example table whose post-dedup ages are `[20, 30, missing]`. -/
def exMeanT : List Row := [rowA, rowB, rowC]

/-- What `rowC` becomes after imputation on `exMeanT`: age filled with 25. -/
def rowCFilled : Row := { rowC with age := Val.num 25 }

/-- Row whose joining date does not parse as a calendar date. -/
def rowBadDate : Row :=
  { name := Val.str "Bob", email := Val.str "bob@mail.com",
    phoneNumber := Val.str "400", age := Val.num 30,
    country := Val.str "US", salary := Val.num 1000,
    joiningDate := Val.str "not-a-date" }

/-- `rowBadDate` after one cleaning pass: the date became the `NaT` sentinel. -/
def rowBadDateClean : Row := { rowBadDate with joiningDate := Val.NaT }

/-- `rowBadDateClean` after a second cleaning pass: `fillna` replaced the
`NaT` with the default date `2025-01-04`. -/
def rowBadDateClean2 : Row := { rowBadDate with joiningDate := Val.date 20250104 }

/-- `rowA` after cleaning: its date string parsed. -/
def cleanRowA : Row := { rowA with joiningDate := Val.date 20200517 }

/-- Example row whose age column is entirely missing. -/
def rowAllNaAge : Row := { rowA with age := Val.NA }

/-- One-row table whose age column is entirely missing. -/
def exAllNaAgeT : List Row := [rowAllNaAge]

/-- Example processor state holding `exMeanT` as its raw data. -/
def exProc : DataProcessor := { raw_df := some exMeanT, cleaned_df := none }

/-- `rowB` after cleaning: its date string parsed. -/
def rowBClean : Row := { rowB with joiningDate := Val.date 20210601 }

/-- `rowC` after cleaning on `exMeanT`: age imputed with the mean 25 and
date string parsed. -/
def rowCClean : Row := { rowCFilled with joiningDate := Val.date 20220709 }

/-- The cleaned table produced from `exMeanT`. -/
def exMeanCleanT : List Row := [cleanRowA, rowBClean, rowCClean]

/-- Processor state after `clean_data` has run on `exProc`. -/
def exProcCleaned : DataProcessor :=
  { raw_df := some exMeanT, cleaned_df := some exMeanCleanT }

attribute [local semireducible] Rat.mul Rat.add Rat.sub Rat.inv

lemma ratFloor_eq (q : ℚ) : ratFloor q = ⌊q⌋ := Rat.floor_def.symm

lemma ratCeil_eq (q : ℚ) : ratCeil q = ⌈q⌉ := by
  rw [ratCeil, ratFloor_eq, Int.floor_neg, neg_neg]

lemma roundHalfEven_intCast (n : ℤ) : roundHalfEven (n : ℚ) = n := by
  unfold roundHalfEven
  rw [ratFloor_eq, Int.floor_intCast, sub_self]
  norm_num

lemma ratTrunc_intCast (n : ℤ) : ratTrunc ((n : ℤ) : ℚ) = n := by
  unfold ratTrunc
  rw [ratFloor_eq, ratCeil_eq, Int.floor_intCast, Int.ceil_intCast]
  split <;> rfl

lemma roundCastInt_intCast (n : ℤ) : roundCastInt (Val.num (n : ℚ)) = some (Val.num (n : ℚ)) := by
  simp [roundCastInt, roundVal, astypeInt, roundHalfEven_intCast, ratTrunc_intCast]

lemma dedupAux_sublist (l : List Row) : ∀ seen, (dedupAux seen l).Sublist l := by
  induction l with
  | nil => intro seen; simp [dedupAux]
  | cons r rs ih =>
      intro seen
      by_cases h : r ∈ seen
      · simpa [dedupAux, h] using (ih seen).cons r
      · simpa [dedupAux, h] using (ih (r :: seen)).cons₂ r

lemma mem_dedupAux (l : List Row) :
    ∀ (seen : List Row) (x : Row), x ∈ dedupAux seen l ↔ (x ∈ l ∧ x ∉ seen) := by
  induction l with
  | nil => intro seen x; simp [dedupAux]
  | cons r rs ih =>
      intro seen x
      by_cases h : r ∈ seen
      · rw [dedupAux, if_pos h, ih]
        constructor
        · rintro ⟨hx, hns⟩; exact ⟨List.mem_cons_of_mem _ hx, hns⟩
        · rintro ⟨hx, hns⟩
          rcases List.mem_cons.mp hx with rfl | hx
          · exact absurd h hns
          · exact ⟨hx, hns⟩
      · rw [dedupAux, if_neg h]
        constructor
        · intro hx
          rcases List.mem_cons.mp hx with rfl | hx
          · exact ⟨List.mem_cons_self _ _, h⟩
          · obtain ⟨h1, h2⟩ := (ih (r :: seen) x).mp hx
            exact ⟨List.mem_cons_of_mem _ h1,
                   fun hs => h2 (List.mem_cons_of_mem _ hs)⟩
        · rintro ⟨hx, hns⟩
          rcases List.mem_cons.mp hx with rfl | hx
          · exact List.mem_cons_self _ _
          · by_cases hxr : x = r
            · subst hxr; exact List.mem_cons_self _ _
            · exact List.mem_cons_of_mem _ ((ih (r :: seen) x).mpr
                ⟨hx, by simp [List.mem_cons, hxr, hns]⟩)

lemma dedupAux_nodup (l : List Row) : ∀ seen : List Row, (dedupAux seen l).Nodup := by
  induction l with
  | nil => intro seen; simp [dedupAux]
  | cons r rs ih =>
      intro seen
      by_cases h : r ∈ seen
      · rw [dedupAux, if_pos h]; exact ih seen
      · rw [dedupAux, if_neg h]
        refine List.nodup_cons.mpr ⟨?_, ih (r :: seen)⟩
        intro hmem
        exact ((mem_dedupAux rs (r :: seen) r).mp hmem).2 (List.mem_cons_self _ _)

lemma mem_dropDuplicates (t : List Row) (x : Row) : x ∈ dropDuplicates t ↔ x ∈ t := by
  rw [dropDuplicates, mem_dedupAux]
  simp

lemma dropDuplicates_nodup (t : List Row) : (dropDuplicates t).Nodup :=
  dedupAux_nodup t []

lemma dropDuplicates_sublist (t : List Row) : (dropDuplicates t).Sublist t :=
  dedupAux_sublist t []

lemma dedupAux_eq_self (l : List Row) :
    ∀ seen, l.Nodup → (∀ x ∈ l, x ∉ seen) → dedupAux seen l = l := by
  induction l with
  | nil => intro seen _ _; rfl
  | cons r rs ih =>
      intro seen hnd hns
      have hr : r ∉ seen := hns r (List.mem_cons_self _ _)
      rw [dedupAux, if_neg hr]
      have hnd' := List.nodup_cons.mp hnd
      refine congrArg (r :: ·) (ih (r :: seen) hnd'.2 ?_)
      intro x hx hmem
      rcases List.mem_cons.mp hmem with rfl | hmem
      · exact hnd'.1 hx
      · exact hns x (List.mem_cons_of_mem _ hx) hmem

lemma dropDuplicates_eq_self {t : List Row} (h : t.Nodup) : dropDuplicates t = t :=
  dedupAux_eq_self t [] h (by simp)

lemma toFinset_dropDuplicates (t : List Row) : (dropDuplicates t).toFinset = t.toFinset := by
  ext x
  simp [List.mem_toFinset, mem_dropDuplicates]

lemma length_dropDuplicates (t : List Row) : (dropDuplicates t).length = t.toFinset.card := by
  rw [← toFinset_dropDuplicates]
  exact (List.toFinset_card_of_nodup (dropDuplicates_nodup t)).symm

lemma dedupAux_eq_specDedup (l : List Row) :
    ∀ seen, dedupAux seen l = specDedup (l.filter (fun x => decide (x ∉ seen))) := by
  induction l with
  | nil => intro seen; simp [dedupAux, specDedup]
  | cons r rs ih =>
      intro seen
      by_cases h : r ∈ seen
      · rw [dedupAux, if_pos h, List.filter_cons_of_neg (by simpa using h)]
        exact ih seen
      · rw [dedupAux, if_neg h, List.filter_cons_of_pos (by simpa using h), specDedup,
            List.filter_filter, ih (r :: seen)]
        refine congrArg (r :: ·) (congrArg specDedup (List.filter_congr ?_))
        intro x _
        rcases Decidable.em (x = r) with hxr | hxr <;>
          rcases Decidable.em (x ∈ seen) with hxs | hxs <;>
            simp [hxr, hxs]

lemma dropDuplicates_eq_specDedup (t : List Row) : dropDuplicates t = specDedup t := by
  rw [dropDuplicates, dedupAux_eq_specDedup t []]
  congr 1
  apply List.filter_eq_self.mpr
  simp

lemma cleanTable_def (t : List Row) :
    cleanTable t = (castAgeCol (filledTable t)).bind (fun a =>
      (castSalaryCol a).bind (fun s => some (parseDateCol s))) := rfl

lemma castAgeCol_cons (r : Row) (rs : List Row) :
    castAgeCol (r :: rs) = (roundCastInt r.age).bind (fun a =>
      (castAgeCol rs).bind (fun rest => some ({ r with age := a } :: rest))) := rfl

lemma castSalaryCol_cons (r : Row) (rs : List Row) :
    castSalaryCol (r :: rs) = (roundCastInt r.salary).bind (fun s =>
      (castSalaryCol rs).bind (fun rest => some ({ r with salary := s } :: rest))) := rfl

lemma castAgeCol_length (l : List Row) :
    ∀ l', castAgeCol l = some l' → l'.length = l.length := by
  induction l with
  | nil =>
      intro l' h
      simp only [castAgeCol] at h
      cases h
      rfl
  | cons r rs ih =>
      intro l' h
      rw [castAgeCol_cons, Option.bind_eq_some] at h
      obtain ⟨a, _, h⟩ := h
      rw [Option.bind_eq_some] at h
      obtain ⟨rest, hrest, h⟩ := h
      cases h
      simp [ih rest hrest]

lemma castSalaryCol_length (l : List Row) :
    ∀ l', castSalaryCol l = some l' → l'.length = l.length := by
  induction l with
  | nil =>
      intro l' h
      simp only [castSalaryCol] at h
      cases h
      rfl
  | cons r rs ih =>
      intro l' h
      rw [castSalaryCol_cons, Option.bind_eq_some] at h
      obtain ⟨a, _, h⟩ := h
      rw [Option.bind_eq_some] at h
      obtain ⟨rest, hrest, h⟩ := h
      cases h
      simp [ih rest hrest]

lemma castAgeCol_getElem (l : List Row) :
    ∀ l', castAgeCol l = some l' → ∀ (i : ℕ) (r : Row), l[i]? = some r →
      ∃ a, roundCastInt r.age = some a ∧ l'[i]? = some { r with age := a } := by
  induction l with
  | nil =>
      intro l' h i r hr
      simp at hr
  | cons x xs ih =>
      intro l' h i r hr
      rw [castAgeCol_cons, Option.bind_eq_some] at h
      obtain ⟨a, ha, h⟩ := h
      rw [Option.bind_eq_some] at h
      obtain ⟨rest, hrest, h⟩ := h
      cases h
      cases i with
      | zero =>
          simp only [List.getElem?_cons_zero, Option.some.injEq] at hr
          subst hr
          exact ⟨a, ha, by simp⟩
      | succ n =>
          simp only [List.getElem?_cons_succ] at hr ⊢
          exact ih rest hrest n r hr

lemma castSalaryCol_getElem (l : List Row) :
    ∀ l', castSalaryCol l = some l' → ∀ (i : ℕ) (r : Row), l[i]? = some r →
      ∃ s, roundCastInt r.salary = some s ∧ l'[i]? = some { r with salary := s } := by
  induction l with
  | nil =>
      intro l' h i r hr
      simp at hr
  | cons x xs ih =>
      intro l' h i r hr
      rw [castSalaryCol_cons, Option.bind_eq_some] at h
      obtain ⟨a, ha, h⟩ := h
      rw [Option.bind_eq_some] at h
      obtain ⟨rest, hrest, h⟩ := h
      cases h
      cases i with
      | zero =>
          simp only [List.getElem?_cons_zero, Option.some.injEq] at hr
          subst hr
          exact ⟨a, ha, by simp⟩
      | succ n =>
          simp only [List.getElem?_cons_succ] at hr ⊢
          exact ih rest hrest n r hr

lemma castAgeCol_mem (l : List Row) :
    ∀ l', castAgeCol l = some l' → ∀ r ∈ l',
      ∃ r0 ∈ l, ∃ a, roundCastInt r0.age = some a ∧ r = { r0 with age := a } := by
  induction l with
  | nil =>
      intro l' h r hr
      simp only [castAgeCol] at h
      cases h
      simp at hr
  | cons x xs ih =>
      intro l' h r hr
      rw [castAgeCol_cons, Option.bind_eq_some] at h
      obtain ⟨a, ha, h⟩ := h
      rw [Option.bind_eq_some] at h
      obtain ⟨rest, hrest, h⟩ := h
      cases h
      rcases List.mem_cons.mp hr with rfl | hr
      · exact ⟨x, List.mem_cons_self _ _, a, ha, rfl⟩
      · obtain ⟨r0, hr0, b, hb, hrb⟩ := ih rest hrest r hr
        exact ⟨r0, List.mem_cons_of_mem _ hr0, b, hb, hrb⟩

lemma castSalaryCol_mem (l : List Row) :
    ∀ l', castSalaryCol l = some l' → ∀ r ∈ l',
      ∃ r0 ∈ l, ∃ s, roundCastInt r0.salary = some s ∧ r = { r0 with salary := s } := by
  induction l with
  | nil =>
      intro l' h r hr
      simp only [castSalaryCol] at h
      cases h
      simp at hr
  | cons x xs ih =>
      intro l' h r hr
      rw [castSalaryCol_cons, Option.bind_eq_some] at h
      obtain ⟨a, ha, h⟩ := h
      rw [Option.bind_eq_some] at h
      obtain ⟨rest, hrest, h⟩ := h
      cases h
      rcases List.mem_cons.mp hr with rfl | hr
      · exact ⟨x, List.mem_cons_self _ _, a, ha, rfl⟩
      · obtain ⟨r0, hr0, b, hb, hrb⟩ := ih rest hrest r hr
        exact ⟨r0, List.mem_cons_of_mem _ hr0, b, hb, hrb⟩

lemma astypeInt_shape (v w : Val) (h : astypeInt v = some w) : ∃ n : ℤ, w = Val.num (n : ℚ) := by
  cases v <;> simp [astypeInt] at h
  exact ⟨_, h.symm⟩

lemma roundCastInt_shape (v w : Val) (h : roundCastInt v = some w) :
    ∃ n : ℤ, w = Val.num (n : ℚ) :=
  astypeInt_shape _ _ h

lemma roundCastInt_num (q : ℚ) :
    roundCastInt (Val.num q) = some (Val.num ((roundHalfEven q : ℤ) : ℚ)) := by
  simp [roundCastInt, roundVal, astypeInt, ratTrunc_intCast]

lemma roundCastInt_isSome_iff (v : Val) : (roundCastInt v).isSome = isNum v := by
  cases v <;> simp [roundCastInt, roundVal, astypeInt, isNum]

lemma update_age_self (r : Row) : { r with age := r.age } = r := by cases r; rfl

lemma update_salary_self (r : Row) : { r with salary := r.salary } = r := by cases r; rfl

lemma fillCell_eq_self (f : Val) {v : Val} (h : isMissing v = false) : fillCell f v = v := by
  cases v <;> simp_all [isMissing, fillCell]

lemma isMissing_fillCell (f v : Val) (hf : isMissing f = false) :
    isMissing (fillCell f v) = false := by
  cases v <;> first
    | simpa [fillCell] using hf
    | simp [fillCell, isMissing]

lemma fillCell_of_missing (f : Val) {v : Val} (h : isMissing v = true) : fillCell f v = f := by
  cases v <;> simp_all [isMissing, fillCell]

lemma toDatetime_isDateOrNaT (v : Val) : isDateOrNaT (toDatetime v) = true := by
  cases v with
  | str s => cases hp : parseDate s <;> simp [toDatetime, hp, isDateOrNaT]
  | num q => rfl
  | date d => rfl
  | NaT => rfl
  | NA => rfl

lemma toDatetime_fix {v : Val} (h : isDateOrNaT v = true) : toDatetime v = v := by
  cases v <;> simp_all [isDateOrNaT, toDatetime]

lemma parseDateCol_getElem (l : List Row) (i : ℕ) :
    (parseDateCol l)[i]? =
      (l[i]?).map (fun r => { r with joiningDate := toDatetime r.joiningDate }) := by
  simp [parseDateCol]

lemma filledTable_getElem (t : List Row) (i : ℕ) :
    (filledTable t)[i]? = ((dropDuplicates t)[i]?).map
      (fillRow (seriesMean ((dropDuplicates t).map Row.age))
               (seriesMean ((dropDuplicates t).map Row.salary))) := by
  simp [filledTable]

lemma map_eq_self_of (l : List Row) (f : Row → Row) (h : ∀ a ∈ l, f a = a) : l.map f = l := by
  induction l with
  | nil => rfl
  | cons x xs ih =>
      rw [List.map_cons, h x (List.mem_cons_self _ _),
          ih (fun a ha => h a (List.mem_cons_of_mem _ ha))]

lemma clean_shape (t out : List Row) (h : cleanTable t = some out) :
    ∀ r ∈ out, (∃ n : ℤ, r.age = Val.num (n : ℚ)) ∧ (∃ n : ℤ, r.salary = Val.num (n : ℚ)) ∧
      isMissing r.name = false ∧ isMissing r.email = false ∧
      isMissing r.phoneNumber = false ∧ isMissing r.country = false ∧
      isDateOrNaT r.joiningDate = true := by
  rw [cleanTable_def, Option.bind_eq_some] at h
  obtain ⟨a, ha, h⟩ := h
  rw [Option.bind_eq_some] at h
  obtain ⟨s, hs, h⟩ := h
  simp only [Option.some.injEq] at h
  subst h
  intro r hr
  obtain ⟨rs, hrs, rfl⟩ := List.mem_map.mp hr
  obtain ⟨ra, hra, v, hv, rfl⟩ := castSalaryCol_mem a s hs rs hrs
  obtain ⟨rf, hrf, w, hw, rfl⟩ := castAgeCol_mem (filledTable t) a ha ra hra
  simp only [filledTable] at hrf
  obtain ⟨r0, _, rfl⟩ := List.mem_map.mp hrf
  obtain ⟨na, hna⟩ := roundCastInt_shape _ _ hw
  obtain ⟨ns, hns⟩ := roundCastInt_shape _ _ hv
  subst hna
  subst hns
  refine ⟨⟨na, rfl⟩, ⟨ns, rfl⟩, ?_, ?_, ?_, ?_, ?_⟩
  · exact isMissing_fillCell _ _ rfl
  · exact isMissing_fillCell _ _ rfl
  · exact isMissing_fillCell _ _ rfl
  · exact isMissing_fillCell _ _ rfl
  · exact toDatetime_isDateOrNaT _

lemma update_joiningDate_self (r : Row) : { r with joiningDate := r.joiningDate } = r := by
  cases r; rfl

lemma isNum_iff (v : Val) : isNum v = true ↔ ∃ q : ℚ, v = Val.num q := by
  cases v <;> simp [isNum]

lemma isNumOrNA_iff (v : Val) : isNumOrNA v = true ↔ (∃ q : ℚ, v = Val.num q) ∨ v = Val.NA := by
  cases v <;> simp [isNumOrNA]

lemma isDateOrNaT_iff (v : Val) :
    isDateOrNaT v = true ↔ (∃ d : ℤ, v = Val.date d) ∨ v = Val.NaT := by
  cases v <;> simp [isDateOrNaT]

lemma fillRow_eq_self (af sf : Val) (r : Row)
    (h1 : isMissing r.name = false) (h2 : isMissing r.email = false)
    (h3 : isMissing r.phoneNumber = false) (h4 : isMissing r.age = false)
    (h5 : isMissing r.country = false) (h6 : isMissing r.salary = false)
    (h7 : isMissing r.joiningDate = false) :
    fillRow af sf r = r := by
  cases r
  simp only [fillRow, Row.mk.injEq]
  exact ⟨fillCell_eq_self _ h1, fillCell_eq_self _ h2, fillCell_eq_self _ h3,
         fillCell_eq_self _ h4, fillCell_eq_self _ h5, fillCell_eq_self _ h6,
         fillCell_eq_self _ h7⟩

lemma castAgeCol_id (l : List Row) (h : ∀ r ∈ l, ∃ n : ℤ, r.age = Val.num (n : ℚ)) :
    castAgeCol l = some l := by
  induction l with
  | nil => rfl
  | cons x xs ih =>
      obtain ⟨n, hn⟩ := h x (List.mem_cons_self _ _)
      rw [castAgeCol_cons, hn, roundCastInt_intCast,
          ih (fun r hr => h r (List.mem_cons_of_mem _ hr))]
      simp [← hn, update_age_self]

lemma castSalaryCol_id (l : List Row) (h : ∀ r ∈ l, ∃ n : ℤ, r.salary = Val.num (n : ℚ)) :
    castSalaryCol l = some l := by
  induction l with
  | nil => rfl
  | cons x xs ih =>
      obtain ⟨n, hn⟩ := h x (List.mem_cons_self _ _)
      rw [castSalaryCol_cons, hn, roundCastInt_intCast,
          ih (fun r hr => h r (List.mem_cons_of_mem _ hr))]
      simp [← hn, update_salary_self]

lemma castAgeCol_isSome (l : List Row) (h : ∀ r ∈ l, isNum r.age = true) :
    (castAgeCol l).isSome = true := by
  induction l with
  | nil => rfl
  | cons x xs ih =>
      obtain ⟨q, hq⟩ := (isNum_iff _).mp (h x (List.mem_cons_self _ _))
      obtain ⟨l', hl'⟩ :=
        Option.isSome_iff_exists.mp (ih (fun r hr => h r (List.mem_cons_of_mem _ hr)))
      rw [castAgeCol_cons, hq, roundCastInt_num, hl']
      rfl

lemma castSalaryCol_isSome (l : List Row) (h : ∀ r ∈ l, isNum r.salary = true) :
    (castSalaryCol l).isSome = true := by
  induction l with
  | nil => rfl
  | cons x xs ih =>
      obtain ⟨q, hq⟩ := (isNum_iff _).mp (h x (List.mem_cons_self _ _))
      obtain ⟨l', hl'⟩ :=
        Option.isSome_iff_exists.mp (ih (fun r hr => h r (List.mem_cons_of_mem _ hr)))
      rw [castSalaryCol_cons, hq, roundCastInt_num, hl']
      rfl

lemma castAgeCol_none (l : List Row) (hne : l ≠ []) (h : ∀ r ∈ l, r.age = Val.NA) :
    castAgeCol l = none := by
  cases l with
  | nil => exact absurd rfl hne
  | cons x xs => rw [castAgeCol_cons, h x (List.mem_cons_self _ _)]; rfl

lemma castSalaryCol_none (l : List Row) (hne : l ≠ []) (h : ∀ r ∈ l, r.salary = Val.NA) :
    castSalaryCol l = none := by
  cases l with
  | nil => exact absurd rfl hne
  | cons x xs => rw [castSalaryCol_cons, h x (List.mem_cons_self _ _)]; rfl

lemma filledTable_mem (t : List Row) (r : Row) (h : r ∈ filledTable t) :
    ∃ r0 ∈ dropDuplicates t,
      r = fillRow (seriesMean ((dropDuplicates t).map Row.age))
                  (seriesMean ((dropDuplicates t).map Row.salary)) r0 := by
  simp only [filledTable] at h
  obtain ⟨r0, hr0, hfr⟩ := List.mem_map.mp h
  exact ⟨r0, hr0, hfr.symm⟩

lemma filledTable_ne_nil (t : List Row) (h : t ≠ []) : filledTable t ≠ [] := by
  cases t with
  | nil => exact absurd rfl h
  | cons x xs =>
      have hx : x ∈ dropDuplicates (x :: xs) :=
        (mem_dropDuplicates _ x).mpr (List.mem_cons_self _ _)
      intro hnil
      rw [filledTable, List.map_eq_nil_iff] at hnil
      rw [hnil] at hx
      exact List.not_mem_nil x hx

lemma mem_numCells_of (vs : List Val) (q : ℚ) (h : Val.num q ∈ vs) : q ∈ numCells vs := by
  rw [numCells, List.mem_filterMap]
  exact ⟨Val.num q, h, rfl⟩

lemma numCells_eq_nil (vs : List Val) (h : ∀ v ∈ vs, v = Val.NA) : numCells vs = [] := by
  rw [numCells, List.filterMap_eq_nil_iff]
  intro v hv
  rw [h v hv]

lemma seriesMean_isNum (vs : List Val) (q : ℚ) (h : Val.num q ∈ vs) :
    isNum (seriesMean vs) = true := by
  have hne : numCells vs ≠ [] := by
    intro hnil
    have hq := mem_numCells_of vs q h
    rw [hnil] at hq
    exact List.not_mem_nil q hq
  simp [seriesMean, hne, isNum]

lemma seriesMean_na (vs : List Val) (h : ∀ v ∈ vs, v = Val.NA) : seriesMean vs = Val.NA := by
  simp [seriesMean, numCells_eq_nil vs h]

lemma filled_age_isNum (t : List Row)
    (hA : ∀ r ∈ t, isNumOrNA r.age = true)
    (hw : ∃ r ∈ t, isNum r.age = true) :
    ∀ r ∈ filledTable t, isNum r.age = true := by
  obtain ⟨rw0, hrw, hrnum⟩ := hw
  obtain ⟨q, hq⟩ := (isNum_iff _).mp hrnum
  have hmem : Val.num q ∈ (dropDuplicates t).map Row.age :=
    List.mem_map.mpr ⟨rw0, (mem_dropDuplicates t rw0).mpr hrw, hq⟩
  have hfillnum := seriesMean_isNum _ q hmem
  intro r hr
  obtain ⟨r0, hr0, rfl⟩ := filledTable_mem t r hr
  have h0 := hA r0 ((mem_dropDuplicates t r0).mp hr0)
  rcases (isNumOrNA_iff _).mp h0 with ⟨p, hp⟩ | hp
  · simp [fillRow, hp, fillCell, isNum]
  · simpa [fillRow, hp, fillCell] using hfillnum

lemma filled_salary_isNum (t : List Row)
    (hS : ∀ r ∈ t, isNumOrNA r.salary = true)
    (hw : ∃ r ∈ t, isNum r.salary = true) :
    ∀ r ∈ filledTable t, isNum r.salary = true := by
  obtain ⟨rw0, hrw, hrnum⟩ := hw
  obtain ⟨q, hq⟩ := (isNum_iff _).mp hrnum
  have hmem : Val.num q ∈ (dropDuplicates t).map Row.salary :=
    List.mem_map.mpr ⟨rw0, (mem_dropDuplicates t rw0).mpr hrw, hq⟩
  have hfillnum := seriesMean_isNum _ q hmem
  intro r hr
  obtain ⟨r0, hr0, rfl⟩ := filledTable_mem t r hr
  have h0 := hS r0 ((mem_dropDuplicates t r0).mp hr0)
  rcases (isNumOrNA_iff _).mp h0 with ⟨p, hp⟩ | hp
  · simp [fillRow, hp, fillCell, isNum]
  · simpa [fillRow, hp, fillCell] using hfillnum

lemma filled_age_na (t : List Row) (h : ∀ r ∈ t, r.age = Val.NA) :
    ∀ r ∈ filledTable t, r.age = Val.NA := by
  have hm : seriesMean ((dropDuplicates t).map Row.age) = Val.NA := by
    apply seriesMean_na
    intro v hv
    obtain ⟨r1, hr1, hfr⟩ := List.mem_map.mp hv
    rw [← hfr]
    exact h r1 ((mem_dropDuplicates t r1).mp hr1)
  intro r hr
  obtain ⟨r0, hr0, rfl⟩ := filledTable_mem t r hr
  simp [fillRow, h r0 ((mem_dropDuplicates t r0).mp hr0), fillCell, hm]

lemma filled_salary_na (t : List Row) (h : ∀ r ∈ t, r.salary = Val.NA) :
    ∀ r ∈ filledTable t, r.salary = Val.NA := by
  have hm : seriesMean ((dropDuplicates t).map Row.salary) = Val.NA := by
    apply seriesMean_na
    intro v hv
    obtain ⟨r1, hr1, hfr⟩ := List.mem_map.mp hv
    rw [← hfr]
    exact h r1 ((mem_dropDuplicates t r1).mp hr1)
  intro r hr
  obtain ⟨r0, hr0, rfl⟩ := filledTable_mem t r hr
  simp [fillRow, h r0 ((mem_dropDuplicates t r0).mp hr0), fillCell, hm]

/-- C1: in `clean_data`, the fill value used for a missing `Age`
(resp. `Salary`) cell is the arithmetic mean of the non-missing values of
that column of the table as it stands after deduplication (`seriesMean`
of the post-dedup column), computed once and applied to every missing
cell of the column, while non-missing cells are left unchanged; on the
example column `[20, 30, missing]` the missing cell is filled so that
the cleaned value is 25 (see `C1_witness`). -/
theorem C1_fill_value_is_post_dedup_mean (t : List Row) (i : ℕ) (r rf : Row)
    (hd : (dropDuplicates t)[i]? = some r)
    (hf : (filledTable t)[i]? = some rf) :
    (r.age = Val.NA → rf.age = seriesMean ((dropDuplicates t).map Row.age)) ∧
    (r.salary = Val.NA → rf.salary = seriesMean ((dropDuplicates t).map Row.salary)) ∧
    (isMissing r.age = false → rf.age = r.age) ∧
    (isMissing r.salary = false → rf.salary = r.salary) := by
  rw [filledTable_getElem, hd] at hf
  simp only [Option.map_some', Option.some.injEq] at hf
  subst hf
  refine ⟨?_, ?_, ?_, ?_⟩
  · intro h; simp [fillRow, h, fillCell]
  · intro h; simp [fillRow, h, fillCell]
  · intro h; simp [fillRow, fillCell_eq_self _ h]
  · intro h; simp [fillRow, fillCell_eq_self _ h]

/-- Witness for C1: on the table whose post-dedup ages are
`[20, 30, missing]`, the missing age cell receives the post-dedup column
mean, which evaluates to 25. -/
theorem C1_witness :
    rowCFilled.age = seriesMean ((dropDuplicates exMeanT).map Row.age) ∧
    seriesMean ((dropDuplicates exMeanT).map Row.age) = Val.num 25 :=
  ⟨(C1_fill_value_is_post_dedup_mean exMeanT 2 rowC rowCFilled (by decide)
      (by decide)).1 (by decide),
   by decide⟩

/-- C2 counterexample: on a table whose `JoiningDate` holds the
unparseable string "not-a-date", `clean_data` succeeds but its output
holds the `NaT` sentinel in `JoiningDate`, and pandas `isna` counts
`NaT` as a missing cell — so a null/missing cell does remain in one of
the seven columns, contradicting the claim as stated. -/
theorem C2_counterexample :
    cleanTable [rowBadDate] = some [rowBadDateClean] ∧
    isMissing rowBadDateClean.joiningDate = true := by
  decide

/-- C2 amended: for every table on which `clean_data` succeeds, no
missing cell remains in the six columns `Name`, `Email`, `PhoneNumber`,
`Age`, `Country`, `Salary`; the `JoiningDate` column holds only parsed
dates or the invalid-date sentinel `NaT` (never a raw string or a plain
missing cell), and the `NaT` sentinel — counted as missing by pandas —
can remain when a date value failed to parse. -/
theorem C2_amended_no_missing_outside_date_sentinel (t out : List Row)
    (h : cleanTable t = some out) :
    ∀ r ∈ out, rowNoMissingSix r = true ∧ isDateOrNaT r.joiningDate = true := by
  intro r hr
  obtain ⟨⟨na, hna⟩, ⟨ns, hns⟩, h1, h2, h3, h4, h5⟩ := clean_shape t out h r hr
  refine ⟨?_, h5⟩
  have h6 : isMissing r.age = false := by rw [hna]; rfl
  have h7 : isMissing r.salary = false := by rw [hns]; rfl
  simp [rowNoMissingSix, h1, h2, h3, h4, h6, h7]

/-- Witness for the amended C2 at the "not-a-date" table. -/
theorem C2_witness :
    rowNoMissingSix rowBadDateClean = true ∧
    isDateOrNaT rowBadDateClean.joiningDate = true :=
  C2_amended_no_missing_outside_date_sentinel [rowBadDate] [rowBadDateClean]
    (by decide) rowBadDateClean (by decide)

/-- C3: deduplication in `clean_data` keeps the first occurrence of each
distinct row and removes exactly the rows identical (by exact value
equality) to an earlier row (`dropDuplicates = specDedup`, the
specification-worded recursion), is a sublist of the input (so the
relative order of survivors is preserved), yields pairwise-distinct rows
with the same membership as the input, and its length is the number of
distinct rows of the input, hence at most the input length. -/
theorem C3_dedup_keeps_first_occurrences (t : List Row) :
    dropDuplicates t = specDedup t ∧
    (dropDuplicates t).Sublist t ∧
    (dropDuplicates t).Nodup ∧
    (∀ x : Row, x ∈ dropDuplicates t ↔ x ∈ t) ∧
    (dropDuplicates t).length = t.toFinset.card ∧
    (dropDuplicates t).length ≤ t.length :=
  ⟨dropDuplicates_eq_specDedup t, dropDuplicates_sublist t, dropDuplicates_nodup t,
   mem_dropDuplicates t, length_dropDuplicates t, (dropDuplicates_sublist t).length_le⟩

/-- C4: when `clean_data` succeeds, every `Age` and `Salary` cell of the
cleaned table is an integer-valued number obtained from the
corresponding (possibly imputed) cell of the filled table by
`round().astype(int)` — banker's rounding to the nearest integer
followed by the integer cast. -/
theorem C4_age_salary_are_round_cast_integers (t out : List Row)
    (h : cleanTable t = some out) (i : ℕ) (rf ro : Row)
    (hf : (filledTable t)[i]? = some rf) (ho : out[i]? = some ro) :
    roundCastInt rf.age = some ro.age ∧ roundCastInt rf.salary = some ro.salary ∧
    isIntVal ro.age = true ∧ isIntVal ro.salary = true := by
  rw [cleanTable_def, Option.bind_eq_some] at h
  obtain ⟨a, ha, h⟩ := h
  rw [Option.bind_eq_some] at h
  obtain ⟨s, hs, h⟩ := h
  simp only [Option.some.injEq] at h
  subst h
  obtain ⟨w, hw, ha2⟩ := castAgeCol_getElem (filledTable t) a ha i rf hf
  obtain ⟨v, hv, hs2⟩ := castSalaryCol_getElem a s hs i _ ha2
  rw [parseDateCol_getElem, hs2] at ho
  simp only [Option.map_some', Option.some.injEq] at ho
  subst ho
  obtain ⟨nw, hnw⟩ := roundCastInt_shape _ _ hw
  obtain ⟨nv, hnv⟩ := roundCastInt_shape _ _ hv
  refine ⟨hw, ?_, ?_, ?_⟩
  · exact hv
  · show isIntVal w = true
    rw [hnw]
    simp [isIntVal]
  · show isIntVal v = true
    rw [hnv]
    simp [isIntVal]

/-- Witness for C4 at the `[20, 30, missing]` table, first row. -/
theorem C4_witness :
    roundCastInt rowA.age = some cleanRowA.age ∧
    roundCastInt rowA.salary = some cleanRowA.salary ∧
    isIntVal cleanRowA.age = true ∧ isIntVal cleanRowA.salary = true := by
  have h := C4_age_salary_are_round_cast_integers exMeanT exMeanCleanT (by decide)
    0 rowA cleanRowA (by decide) (by decide)
  exact ⟨h.1, h.2.1, h.2.2.1, h.2.2.2⟩

/-- C5: during type normalization every `JoiningDate` value that fails
to parse is coerced to the `NaT` sentinel rather than raising (in
particular the string "not-a-date"), and on any successful run of
`clean_data` no raw unparsed string remains in the cleaned
`JoiningDate` column: every cell there is a parsed date or the
sentinel. -/
theorem C5_unparseable_date_coerced_to_sentinel (t out : List Row)
    (h : cleanTable t = some out) :
    (∀ r ∈ out, isDateOrNaT r.joiningDate = true) ∧
    (∀ s : String, parseDate s = none → toDatetime (Val.str s) = Val.NaT) ∧
    toDatetime (Val.str "not-a-date") = Val.NaT := by
  refine ⟨?_, ?_, by decide⟩
  · intro r hr
    exact (clean_shape t out h r hr).2.2.2.2.2.2
  · intro s hs
    simp [toDatetime, hs]

/-- Witness for C5: the pipeline completes on the "not-a-date" table and
the cleaned date cell is the sentinel. -/
theorem C5_witness : isDateOrNaT rowBadDateClean.joiningDate = true :=
  (C5_unparseable_date_coerced_to_sentinel [rowBadDate] [rowBadDateClean]
    (by decide)).1 rowBadDateClean (by decide)

/-- C6 counterexample: cleaning is not idempotent as stated.  One clean
of the "not-a-date" table leaves the `NaT` sentinel in `JoiningDate`;
cleaning that result again changes the cell, because `fillna` treats
`NaT` as missing and replaces it with the default date 2025-01-04. -/
theorem C6_counterexample :
    cleanTable [rowBadDate] = some [rowBadDateClean] ∧
    cleanTable [rowBadDateClean] = some [rowBadDateClean2] ∧
    rowBadDateClean ≠ rowBadDateClean2 := by
  decide

/-- C6 amended: cleaning an already-cleaned table yields the identical
table provided the cleaned table has pairwise-distinct rows (imputation
can create new duplicates, which a second pass would drop) and no `NaT`
sentinel in `JoiningDate` (which a second pass would refill with the
default date); under those two conditions no row is removed and no cell
changes. -/
theorem C6_amended_idempotent_without_sentinel (t out : List Row)
    (h : cleanTable t = some out) (hnodup : out.Nodup)
    (hdate : ∀ r ∈ out, r.joiningDate ≠ Val.NaT) :
    cleanTable out = some out := by
  have hshape := clean_shape t out h
  have hjd : ∀ r ∈ out, ∃ d : ℤ, r.joiningDate = Val.date d := by
    intro r hr
    rcases (isDateOrNaT_iff _).mp (hshape r hr).2.2.2.2.2.2 with hd | hn
    · exact hd
    · exact absurd hn (hdate r hr)
  have hfid : filledTable out = out := by
    rw [filledTable, dropDuplicates_eq_self hnodup]
    apply map_eq_self_of
    intro r hr
    obtain ⟨⟨na, hna⟩, ⟨ns, hns⟩, h1, h2, h3, h4, _⟩ := hshape r hr
    obtain ⟨d, hd⟩ := hjd r hr
    exact fillRow_eq_self _ _ r h1 h2 h3 (by rw [hna]; rfl) h4 (by rw [hns]; rfl)
      (by rw [hd]; rfl)
  have hages : ∀ r ∈ out, ∃ n : ℤ, r.age = Val.num (n : ℚ) := fun r hr => (hshape r hr).1
  have hsals : ∀ r ∈ out, ∃ n : ℤ, r.salary = Val.num (n : ℚ) :=
    fun r hr => (hshape r hr).2.1
  have hpd : parseDateCol out = out := by
    unfold parseDateCol
    apply map_eq_self_of
    intro r hr
    rw [toDatetime_fix (hshape r hr).2.2.2.2.2.2]
  rw [cleanTable_def, hfid, castAgeCol_id out hages]
  simp only [Option.some_bind]
  rw [castSalaryCol_id out hsals]
  simp only [Option.some_bind]
  rw [hpd]

/-- Witness for the amended C6: a one-row cleaned table with a parsed
date is a fixed point of the cleaning transform. -/
theorem C6_witness : cleanTable [cleanRowA] = some [cleanRowA] :=
  C6_amended_idempotent_without_sentinel [rowA] [cleanRowA]
    (by decide) (by decide) (by decide)

/-- C7: `clean_data` does not mutate the loaded input table: it works on
a copy (`df = self.raw_df.copy()` followed by in-place operations on the
copy only), so after the call `raw_df` holds exactly what it held
before, whatever that was, and the cleaned table is stored separately in
`cleaned_df`. -/
theorem C7_input_not_mutated (p q : DataProcessor) (h : clean_data p = some q) :
    q.raw_df = p.raw_df := by
  cases hp : p.raw_df with
  | none =>
      simp only [clean_data, hp, Option.some.injEq] at h
      rw [← h]
      exact hp
  | some t =>
      simp only [clean_data, hp, Option.map_eq_some'] at h
      obtain ⟨c, _, hq⟩ := h
      rw [← hq]

/-- Witness for C7 on the `[20, 30, missing]` table. -/
theorem C7_witness : exProcCleaned.raw_df = exProc.raw_df :=
  C7_input_not_mutated exProc exProcCleaned (by decide)

/-- C8: when the input source cannot be read, `load_data` reports an
error (rather than failing silently) and leaves `raw_df` as `None`;
`run_pipeline` then invokes no stage at all — no cleaning,
visualization, dashboard, report or save — nothing is cleaned, and a
direct `clean_data` call on that state returns without error leaving the
state unchanged ("no data to clean"). -/
theorem C8_unloadable_source_reports_and_skips :
    (initProcessor none).2 = true ∧
    run_pipeline (initProcessor none).1
        = some ((initProcessor none).1, ([] : List Stage)) ∧
    (initProcessor none).1.cleaned_df = none ∧
    clean_data (initProcessor none).1 = some ((initProcessor none).1) := by
  decide

/-- C9: cleaning the empty table (no data rows; the seven-column schema
is fixed by the `Row` type) succeeds without error and yields the empty
table. -/
theorem C9_empty_table_cleans_to_empty :
    cleanTable ([] : List Row) = some [] := by
  decide

/-- C10: on a table whose `Age` (resp. `Salary`) column is numeric-or-
missing, if at least one value of the column is non-missing then the
mean-based fill and integer cast of that column succeed; if instead the
column is missing in every row of a non-empty table, the computed mean
is itself the missing value `NaN`, the missing cells stay unfilled, and
`clean_data` fails at the integer cast (returns no cleaned table). -/
theorem C10_mean_fill_cast_success_and_failure (t : List Row)
    (hA : ∀ r ∈ t, isNumOrNA r.age = true)
    (hS : ∀ r ∈ t, isNumOrNA r.salary = true) :
    ((∃ r ∈ t, isNum r.age = true) → (castAgeCol (filledTable t)).isSome = true) ∧
    ((∃ r ∈ t, isNum r.salary = true) → (castSalaryCol (filledTable t)).isSome = true) ∧
    (t ≠ [] → (∀ r ∈ t, r.age = Val.NA) →
      seriesMean ((dropDuplicates t).map Row.age) = Val.NA ∧
      (∀ r ∈ filledTable t, r.age = Val.NA) ∧ cleanTable t = none) ∧
    (t ≠ [] → (∀ r ∈ t, r.salary = Val.NA) → cleanTable t = none) := by
  refine ⟨?_, ?_, ?_, ?_⟩
  · intro hw
    exact castAgeCol_isSome _ (filled_age_isNum t hA hw)
  · intro hw
    exact castSalaryCol_isSome _ (filled_salary_isNum t hS hw)
  · intro hne hall
    refine ⟨?_, filled_age_na t hall, ?_⟩
    · apply seriesMean_na
      intro v hv
      obtain ⟨r1, hr1, hfr⟩ := List.mem_map.mp hv
      rw [← hfr]
      exact hall r1 ((mem_dropDuplicates t r1).mp hr1)
    · rw [cleanTable_def,
          castAgeCol_none (filledTable t) (filledTable_ne_nil t hne)
            (filled_age_na t hall)]
      rfl
  · intro hne hall
    cases hc : castAgeCol (filledTable t) with
    | none => rw [cleanTable_def, hc]; rfl
    | some a =>
        have hane : a ≠ [] := by
          intro h0
          have hlen := castAgeCol_length (filledTable t) a hc
          rw [h0] at hlen
          exact filledTable_ne_nil t hne (List.length_eq_zero.mp hlen.symm)
        have hsal : ∀ r ∈ a, r.salary = Val.NA := by
          intro r hr
          obtain ⟨r0, hr0, w, _, rfl⟩ := castAgeCol_mem (filledTable t) a hc r hr
          simpa using filled_salary_na t hall r0 hr0
        rw [cleanTable_def, hc]
        simp only [Option.some_bind]
        rw [castSalaryCol_none a hane hsal]
        rfl

/-- Witness for C10 at the `[20, 30, missing]` table: its age column has
non-missing values, so the age fill-and-cast succeeds. -/
theorem C10_witness : (castAgeCol (filledTable exMeanT)).isSome = true :=
  (C10_mean_fill_cast_success_and_failure exMeanT (by decide) (by decide)).1
    ⟨rowA, by decide, by decide⟩
